import Mathlib

/-!
Shallow embedding of the FinanceFlow backend core (src/server/storage.ts,
class MemoryStorage, together with the register route of the API layer).

Modelling conventions:
* A stored decimal amount string (drizzle `decimal(15,2)`, kept as a JS
  string in memory) is modelled by the exact rational value it denotes.
* JavaScript `Number` arithmetic is IEEE-754 binary64.  `round64 q` rounds
  an exact rational to the nearest binary64 value (round half to even) in
  the normal range; `jsAdd`/`jsSub` are binary64 addition/subtraction and
  `sumNumber` is the `reduce((sum, t) => sum + Number(t.amount), 0)` fold.
* Timestamps are milliseconds of local time as integers; the local
  calendar is modelled as uniform (no daylight-saving discontinuities),
  with day 0 of the epoch falling on a Thursday, as in the Unix epoch, so
  the JS `getDay()` of a timestamp `t` is `(t / 86400000 + 4) % 7`.
* `Math.random`-driven id generation is modelled by an explicit stream of
  uniformly drawn indices `ℕ → Fin 36`, and the regenerate-on-collision
  loop of `createUser` by an explicit fuel bound; exhausted fuel maps to a
  rejected registration, which leaves the store unchanged.
* Asynchronous methods mutate no shared state concurrently (the host
  event loop serialises them), so each method is a pure function of the
  store state, returning a result and/or an updated state.
-/

/-- Classification of a transaction (`type` column: `income` or `expense`). -/
inductive TxType where
  | income
  | expense
deriving DecidableEq

/-- Chat message kind (`message_type` column: `text` or `ping`). -/
inductive MessageType where
  | text
  | ping
deriving DecidableEq

/-- A row of the `users` table / an element of `MemoryStorage.users`. -/
structure User where
  id : String
  fullName : String
  privateKey : String
  weyId : String
  monthlyTarget : ℚ
  createdAt : ℤ
deriving DecidableEq

/-- A row of the `transactions` table / an element of
`MemoryStorage.transactions`.  `amount` is the exact decimal value of the
stored amount string. -/
structure Transaction where
  id : String
  userId : String
  amount : ℚ
  type : TxType
  category : String
  description : Option String
  date : ℤ
  createdAt : ℤ
deriving DecidableEq

/-- A row of the `contacts` table. -/
structure Contact where
  id : String
  userId : String
  contactWeyId : String
  contactName : String
  createdAt : ℤ
deriving DecidableEq

/-- A row of the `chatMessages` table.  `toWeyId` carries the recipient's
public handle (wey id), as declared by the schema
(`to_wey_id` references `users.wey_id`). -/
structure ChatMessage where
  id : String
  fromUserId : String
  toWeyId : String
  content : String
  messageType : MessageType
  isRead : Bool
  createdAt : ℤ
deriving DecidableEq

/-- The state of the in-memory store (class `MemoryStorage`).  The global
chat collection is omitted: no verified claim concerns it. -/
structure MemoryStorage where
  users : List User
  transactions : List Transaction
  contacts : List Contact
  chatMessages : List ChatMessage
deriving DecidableEq

/-- The store state at process start: all collections empty. -/
def emptyStorage : MemoryStorage := ⟨[], [], [], []⟩

/-- Payload of `createUser` (insert schema of `users` after validation). -/
structure InsertUser where
  fullName : String
  privateKey : String
  monthlyTarget : ℚ
deriving DecidableEq

/-- Payload of `createTransaction` (insert schema of `transactions`). -/
structure InsertTransaction where
  amount : ℚ
  type : TxType
  category : String
  description : Option String
  date : ℤ
deriving DecidableEq

/-- Payload of `addContact`. -/
structure InsertContact where
  contactWeyId : String
  contactName : String
deriving DecidableEq

/-- Payload of `sendMessage`; `messageType` is optional and defaults to
`text` (`data.messageType || "text"`). -/
structure InsertChatMessage where
  toWeyId : String
  content : String
  messageType : Option MessageType
deriving DecidableEq

/-- Result of `getUserBalance`. -/
structure BalanceResult where
  income : ℚ
  expense : ℚ
  balance : ℚ
deriving DecidableEq

/-- One element of the `getWeeklyStats` result. -/
structure WeekBucket where
  week : String
  income : ℚ
  expense : ℚ
  balance : ℚ
  startDate : ℤ
  endDate : ℤ
deriving DecidableEq

/-- One element of the `getChatMessages` result (the projected view the
method maps each stored message to). -/
structure ChatMessageView where
  id : String
  content : String
  messageType : MessageType
  isRead : Bool
  createdAt : ℤ
  fromUserId : String
  isFromCurrentUser : Bool
deriving DecidableEq

/-! ### Binary64 arithmetic model -/

/-- Round a rational to the nearest integer, ties to even. -/
def roundHalfEven (q : ℚ) : ℤ :=
  if q - ⌊q⌋ < 1/2 then ⌊q⌋
  else if (1:ℚ)/2 < q - ⌊q⌋ then ⌊q⌋ + 1
  else if ⌊q⌋ % 2 = 0 then ⌊q⌋ else ⌊q⌋ + 1

/-- Round an exact rational to the nearest IEEE-754 binary64 value
(53-bit significand, round half to even), ignoring overflow and
subnormal underflow, which no currency value in range reaches.  This is
the value JS holds after `Number(s)` for a decimal string `s` of exact
value `q`, and the rounding applied after every arithmetic operation. -/
def round64 (q : ℚ) : ℚ :=
  if q = 0 then 0
  else roundHalfEven (q / (2:ℚ) ^ (Int.log 2 |q| - 52)) * (2:ℚ) ^ (Int.log 2 |q| - 52)

/-- Binary64 addition (`+` on JS numbers). -/
def jsAdd (a b : ℚ) : ℚ := round64 (a + b)

/-- Binary64 subtraction (`-` on JS numbers). -/
def jsSub (a b : ℚ) : ℚ := round64 (a - b)

/-- The summation the storage layer performs:
`list.reduce((sum, t) => sum + Number(t.amount), 0)` over the exact
values of the amount strings. -/
def sumNumber (l : List ℚ) : ℚ := l.foldl (fun s a => jsAdd s (round64 a)) 0

/-! ### Sorting (JS `Array.prototype.sort`, a stable sort, with
comparators `(a, b) => b.date - a.date` resp. `b.createdAt - a.createdAt`,
i.e. descending by the key) -/

/-- Stable sort of transactions, most recent occurrence date first. -/
def sortByDateDesc (l : List Transaction) : List Transaction :=
  l.insertionSort (fun a b => b.date ≤ a.date)

/-- Stable sort of chat messages, most recent creation time first. -/
def sortByCreatedAtDesc (l : List ChatMessage) : List ChatMessage :=
  l.insertionSort (fun a b => b.createdAt ≤ a.createdAt)

/-! ### User lookup methods -/

/-- Method `getUserByPrivateKey`: first user with the given credential. -/
def getUserByPrivateKey (st : MemoryStorage) (privateKey : String) : Option User :=
  st.users.find? (fun u => u.privateKey = privateKey)

/-- Method `getUserByWeyId`: first user with the given public handle. -/
def getUserByWeyId (st : MemoryStorage) (weyId : String) : Option User :=
  st.users.find? (fun u => u.weyId = weyId)

/-! ### Transaction store -/

/-- Method `getUserTransactions(userId, limit = 50)`: the user's
transactions sorted by occurrence date descending, truncated to `limit`. -/
def getUserTransactions (st : MemoryStorage) (userId : String) (limit : ℕ := 50) :
    List Transaction :=
  (sortByDateDesc (st.transactions.filter (fun t => t.userId = userId))).take limit

/-- The JS expression `transaction.description || null`: an absent or
empty (falsy) description is stored as null. -/
def normalizeDescription : Option String → Option String
  | some s => if s = "" then none else some s
  | none => none

/-- Method `createTransaction`: builds the new row (fresh id `newId`,
creation time `now`) and appends it to the collection, returning it. -/
def createTransaction (st : MemoryStorage) (userId : String) (data : InsertTransaction)
    (newId : String) (now : ℤ) : Transaction × MemoryStorage :=
  let t : Transaction :=
    { id := newId, userId := userId, amount := data.amount, type := data.type,
      category := data.category, description := normalizeDescription data.description,
      date := data.date, createdAt := now }
  (t, { st with transactions := st.transactions ++ [t] })

/-! ### Analytics aggregator -/

/-- Method `getUserBalance`: filters the user's transactions, sums the
amounts of each type with binary64 addition, and subtracts. -/
def getUserBalance (st : MemoryStorage) (userId : String) : BalanceResult :=
  let userTransactions := st.transactions.filter (fun t => t.userId = userId)
  let income := sumNumber ((userTransactions.filter (fun t => t.type = TxType.income)).map (·.amount))
  let expense := sumNumber ((userTransactions.filter (fun t => t.type = TxType.expense)).map (·.amount))
  { income := income, expense := expense, balance := jsSub income expense }

/-- Method `getUserTransactionsByDateRange`: inclusive-bounds filter on
the occurrence date, sorted descending. -/
def getUserTransactionsByDateRange (st : MemoryStorage) (userId : String)
    (startDate endDate : ℤ) : List Transaction :=
  sortByDateDesc (st.transactions.filter
    (fun t => t.userId = userId ∧ startDate ≤ t.date ∧ t.date ≤ endDate))

/-- Milliseconds per day. -/
def dayMs : ℤ := 86400000

/-- Index of the local calendar day containing timestamp `t`
(the day starts at `dayIndex t * dayMs`, which is what
`setHours(0,0,0,0)` truncates to). -/
def dayIndex (t : ℤ) : ℤ := t / dayMs

/-- JS `Date#getDay` of timestamp `t` in the uniform local-time model:
0 = Sunday, …, 6 = Saturday; day 0 of the epoch is a Thursday. -/
def dayOfWeek (t : ℤ) : ℤ := (dayIndex t + 4) % 7

/-- The subtrahend `now.getDay() === 0 ? 6 : now.getDay() - 1` of
`getWeeklyStats`: days elapsed since the week's Monday. -/
def mondayOffset (now : ℤ) : ℤ :=
  if dayOfWeek now = 0 then 6 else dayOfWeek now - 1

/-- Start of week bucket `i` (0 = current week): the Monday midnight
`i` weeks before the current week's Monday. -/
def weekStartMs (now : ℤ) (i : ℕ) : ℤ :=
  (dayIndex now - mondayOffset now - 7 * (i : ℤ)) * dayMs

/-- End of week bucket `i`: the following Sunday at 23:59:59.999. -/
def weekEndMs (now : ℤ) (i : ℕ) : ℤ := weekStartMs now i + 7 * dayMs - 1

/-- Label of week bucket `i` (`Minggu Ini`, `Minggu Lalu`, `k Minggu Lalu`). -/
def weekLabel (i : ℕ) : String :=
  if i = 0 then "Minggu Ini"
  else if i = 1 then "Minggu Lalu"
  else toString (i + 1) ++ " Minggu Lalu"

/-- One iteration of the `getWeeklyStats` loop: the bucket for week `i`. -/
def weeklyBucket (st : MemoryStorage) (userId : String) (now : ℤ) (i : ℕ) : WeekBucket :=
  let ws := weekStartMs now i
  let we := weekEndMs now i
  let weekTransactions := getUserTransactionsByDateRange st userId ws we
  let income := sumNumber ((weekTransactions.filter (fun t => t.type = TxType.income)).map (·.amount))
  let expense := sumNumber ((weekTransactions.filter (fun t => t.type = TxType.expense)).map (·.amount))
  { week := weekLabel i, income := income, expense := expense,
    balance := jsSub income expense, startDate := ws, endDate := we }

/-- Method `getWeeklyStats(userId, weekCount = 4)` at current time `now`:
one bucket per loop iteration `i = 0, …, weekCount - 1`. -/
def getWeeklyStats (st : MemoryStorage) (userId : String) (now : ℤ)
    (weekCount : ℕ := 4) : List WeekBucket :=
  (List.range weekCount).map (weeklyBucket st userId now)

/-! ### Chat store -/

/-- Method `addContact`: builds the new contact row and appends it.
The method performs no existence or duplicate check. -/
def addContact (st : MemoryStorage) (userId : String) (data : InsertContact)
    (newId : String) (now : ℤ) : Contact × MemoryStorage :=
  let c : Contact :=
    { id := newId, userId := userId, contactWeyId := data.contactWeyId,
      contactName := data.contactName, createdAt := now }
  (c, { st with contacts := st.contacts ++ [c] })

/-- Method `sendMessage`: builds the new message row (read flag false,
message type defaulted to `text`) and appends it.  The method performs no
recipient-existence check. -/
def sendMessage (st : MemoryStorage) (fromUserId : String) (data : InsertChatMessage)
    (newId : String) (now : ℤ) : ChatMessage × MemoryStorage :=
  let m : ChatMessage :=
    { id := newId, fromUserId := fromUserId, toWeyId := data.toWeyId,
      content := data.content, messageType := data.messageType.getD MessageType.text,
      isRead := false, createdAt := now }
  (m, { st with chatMessages := st.chatMessages ++ [m] })

/-- Method `markMessagesAsRead(userId, contactWeyId)`: resolves the
contact handle; if it resolves, sets the read flag on each message with
`fromUserId` the contact's internal id, `toWeyId` equal to `userId` (the
owner's internal id, as written in the source) and read flag unset. -/
def markMessagesAsRead (st : MemoryStorage) (userId contactWeyId : String) :
    MemoryStorage :=
  match getUserByWeyId st contactWeyId with
  | none => st
  | some contactUser =>
    { st with chatMessages := st.chatMessages.map (fun m =>
        if m.fromUserId = contactUser.id ∧ m.toWeyId = userId ∧ m.isRead = false
        then { m with isRead := true } else m) }

/-- Method `getChatMessages(userId, contactWeyId, limit = 50)`: resolves
the contact handle (empty result if it does not resolve), merges the two
message directions as written in the source, sorts by creation time
descending, truncates, and projects each message to its view. -/
def getChatMessages (st : MemoryStorage) (userId contactWeyId : String)
    (limit : ℕ := 50) : List ChatMessageView :=
  match getUserByWeyId st contactWeyId with
  | none => []
  | some contactUser =>
    ((sortByCreatedAtDesc (st.chatMessages.filter (fun m =>
        (m.fromUserId = userId ∧ m.toWeyId = contactWeyId) ∨
        (m.fromUserId = contactUser.id ∧ m.toWeyId = userId)))).take limit).map
      (fun m =>
        { id := m.id, content := m.content, messageType := m.messageType,
          isRead := m.isRead, createdAt := m.createdAt, fromUserId := m.fromUserId,
          isFromCurrentUser := m.fromUserId = userId })

/-! ### Registration -/

/-- The closed alphabet of `generateWeyId`:
`ABCDEFGHIJKLMNOPQRSTUVWXYZ0123456789`. -/
def weyAlphabet : List Char := "ABCDEFGHIJKLMNOPQRSTUVWXYZ0123456789".toList

/-- Character of the alphabet at a drawn index. -/
def weyChar (i : Fin 36) : Char := weyAlphabet.get (Fin.cast rfl i)

/-- Method `generateWeyId`: eight characters drawn from the alphabet.
The randomness source `rng` supplies the drawn indices
(`Math.floor(Math.random() * chars.length)`), consumed from position `k`. -/
def generateWeyId (rng : ℕ → Fin 36) (k : ℕ) : String :=
  String.mk ((List.range 8).map (fun j => weyChar (rng (k + j))))

/-- The do-while regeneration loop of `createUser`: draws candidate ids
until one not present in `users` is found, giving up (fuel exhausted)
after `fuel` attempts.  The real loop has no bound; fuel exhaustion
models the (probability-zero) nonterminating run as a rejection. -/
def pickWeyId (users : List User) (rng : ℕ → Fin 36) : ℕ → ℕ → Option String
  | _, 0 => none
  | k, fuel + 1 =>
    let c := generateWeyId rng k
    if users.any (fun u => u.weyId = c) then pickWeyId users rng (k + 8) fuel
    else some c

/-- Method `createUser`: allocates a unique wey id via the regeneration
loop and appends the new user row (fresh internal id `newId`). -/
def createUser (st : MemoryStorage) (data : InsertUser) (rng : ℕ → Fin 36)
    (fuel : ℕ) (newId : String) (now : ℤ) : Option (User × MemoryStorage) :=
  (pickWeyId st.users rng 0 fuel).map (fun w =>
    let u : User :=
      { id := newId, fullName := data.fullName, privateKey := data.privateKey,
        weyId := w, monthlyTarget := data.monthlyTarget, createdAt := now }
    (u, { st with users := st.users ++ [u] }))

/-- The `POST /api/auth/register` handler: rejects (state unchanged) when
some user already holds the submitted private key, otherwise delegates to
`createUser`. -/
def registerUser (st : MemoryStorage) (data : InsertUser) (rng : ℕ → Fin 36)
    (fuel : ℕ) (newId : String) (now : ℤ) : MemoryStorage :=
  if (getUserByPrivateKey st data.privateKey).isSome then st
  else
    match createUser st data rng fuel newId now with
    | none => st
    | some (_, st2) => st2

/-- Everything one registration request depends on: the validated payload,
the randomness the id generator will consume, the retry fuel, the fresh
internal id and the wall-clock time. -/
structure RegStep where
  data : InsertUser
  rng : ℕ → Fin 36
  fuel : ℕ
  newId : String
  now : ℤ

/-- A sequence of registration requests executed against the store,
starting from the empty store. -/
def runRegistrations (steps : List RegStep) : MemoryStorage :=
  steps.foldl (fun st s => registerUser st s.data s.rng s.fuel s.newId s.now) emptyStorage

/-- A well-formed public handle: exactly eight symbols, all from the
closed alphabet. -/
def ValidWeyId (w : String) : Prop :=
  w.length = 8 ∧ ∀ c ∈ w.data, c ∈ weyAlphabet

/-- The directory invariant of claim C7: all handles well formed, no two
users share a handle, no two users share a credential. -/
def RegInvariant (st : MemoryStorage) : Prop :=
  (∀ u ∈ st.users, ValidWeyId u.weyId) ∧
  st.users.Pairwise (fun u v => u.weyId ≠ v.weyId) ∧
  st.users.Pairwise (fun u v => u.privateKey ≠ v.privateKey)

/-! ### Exactness of the binary64 model on small integers -/

theorem roundHalfEven_intCast (m : ℤ) : roundHalfEven (m : ℚ) = m := by
  unfold roundHalfEven
  rw [Int.floor_intCast]
  rw [if_pos (by rw [sub_self]; norm_num)]

theorem round64_zero : round64 0 = 0 := by simp [round64]

theorem round64_intCast (m : ℤ) (h : |m| < 2 ^ 53) : round64 (m : ℚ) = m := by
  rcases eq_or_ne m 0 with rfl | hm
  · simpa using round64_zero
  · have hm0 : ((m : ℚ)) ≠ 0 := Int.cast_ne_zero.mpr hm
    have habs : (0 : ℚ) < |(m : ℚ)| := abs_pos.mpr hm0
    have hlog : Int.log 2 |(m : ℚ)| ≤ 52 := by
      have h53 : |(m : ℚ)| < ((2 : ℕ) : ℚ) ^ (53 : ℤ) := by
        rw [← Int.cast_abs, show ((53 : ℤ)) = ((53 : ℕ) : ℤ) from rfl, zpow_natCast]
        push_cast
        exact_mod_cast h
      have hlt := (Int.lt_zpow_iff_log_lt (by norm_num) habs).mp h53
      omega
    unfold round64
    rw [if_neg hm0]
    set e := Int.log 2 |(m : ℚ)| with he
    set k := (52 - e).toNat with hk
    have hek : e - 52 = -(k : ℤ) := by omega
    rw [hek, zpow_neg, zpow_natCast, div_eq_mul_inv, inv_inv]
    have hmk : (m : ℚ) * (2 : ℚ) ^ k = ((m * 2 ^ k : ℤ) : ℚ) := by push_cast; ring
    rw [hmk, roundHalfEven_intCast, ← hmk]
    exact mul_inv_cancel_right₀ (pow_ne_zero k two_ne_zero) _

theorem round64_natCast (n : ℕ) (h : n < 2 ^ 53) : round64 (n : ℚ) = n := by
  have habs : |(n : ℤ)| < 2 ^ 53 := by
    rw [abs_of_nonneg (Int.natCast_nonneg n)]
    exact_mod_cast h
  exact_mod_cast round64_intCast n habs

theorem sumNumber_go_natCast (l : List ℚ) (acc : ℕ)
    (hl : ∀ a ∈ l, ∃ n : ℕ, a = (n : ℚ))
    (hb : (acc : ℚ) + l.sum < 2 ^ 53) :
    l.foldl (fun s a => jsAdd s (round64 a)) (acc : ℚ) = (acc : ℚ) + l.sum := by
  induction l generalizing acc with
  | nil => simp
  | cons a t ih =>
    obtain ⟨n, rfl⟩ := hl a (by simp)
    have hts : (0 : ℚ) ≤ t.sum := List.sum_nonneg (fun x hx => by
      obtain ⟨k, rfl⟩ := hl x (by simp [hx])
      positivity)
    have hsum : (acc : ℚ) + ((n : ℚ) + t.sum) < 2 ^ 53 := by simpa using hb
    have hacc0 : (0 : ℚ) ≤ (acc : ℚ) := by positivity
    have hnq : (n : ℚ) < 2 ^ 53 := by linarith
    have hr : round64 ((n : ℕ) : ℚ) = (n : ℚ) :=
      round64_natCast n (by exact_mod_cast hnq)
    have hstep : jsAdd (acc : ℚ) ((n : ℕ) : ℚ) = ((acc + n : ℕ) : ℚ) := by
      unfold jsAdd
      have hc : ((acc : ℚ) + (n : ℚ)) = ((acc + n : ℕ) : ℚ) := by push_cast; ring
      rw [hc]
      refine round64_natCast _ ?_
      have : ((acc + n : ℕ) : ℚ) < 2 ^ 53 := by push_cast; linarith
      exact_mod_cast this
    simp only [List.foldl_cons]
    rw [hr, hstep, ih (acc + n) (fun x hx => hl x (by simp [hx]))
      (by push_cast; linarith)]
    rw [List.sum_cons]
    push_cast
    ring

theorem sumNumber_natCast (l : List ℚ)
    (hl : ∀ a ∈ l, ∃ n : ℕ, a = (n : ℚ)) (hb : l.sum < 2 ^ 53) :
    sumNumber l = l.sum := by
  have h0 := sumNumber_go_natCast l 0 hl (by simpa using hb)
  simpa [sumNumber] using h0

theorem natSum_of_forall_nat (l : List ℚ) (hl : ∀ a ∈ l, ∃ n : ℕ, a = (n : ℚ)) :
    ∃ n : ℕ, l.sum = (n : ℚ) := by
  induction l with
  | nil => exact ⟨0, by simp⟩
  | cons a t ih =>
    obtain ⟨n, rfl⟩ := hl a (by simp)
    obtain ⟨s, hs⟩ := ih (fun x hx => hl x (by simp [hx]))
    refine ⟨n + s, ?_⟩
    rw [List.sum_cons, hs]
    push_cast
    ring

theorem sum_map_filter_le {α : Type} (l : List α) (q : α → Bool) (f : α → ℚ)
    (h : ∀ x ∈ l, 0 ≤ f x) : ((l.filter q).map f).sum ≤ ((l.map f)).sum := by
  induction l with
  | nil => simp
  | cons a t ih =>
    have ha := h a (by simp)
    have iht := ih (fun x hx => h x (by simp [hx]))
    by_cases hq : q a
    · simp only [List.filter_cons, hq, if_pos, List.map_cons, List.sum_cons]
      simpa using iht
    · simp only [List.filter_cons, if_neg hq, List.map_cons, List.sum_cons]
      linarith

theorem filter_user_then_type (l : List Transaction) (uid : String) (ty : TxType) :
    (l.filter (fun t => t.userId = uid)).filter (fun t => t.type = ty)
      = l.filter (fun t => t.userId = uid ∧ t.type = ty) := by
  rw [List.filter_filter]
  apply List.filter_congr
  intro a _
  by_cases h1 : a.userId = uid <;> by_cases h2 : a.type = ty <;> simp [h1, h2]

/-! ### Sorting facts -/

theorem sortByDateDesc_perm (l : List Transaction) : (sortByDateDesc l).Perm l :=
  List.perm_insertionSort _ l

theorem sortByDateDesc_sorted (l : List Transaction) :
    List.Sorted (fun a b : Transaction => b.date ≤ a.date) (sortByDateDesc l) := by
  haveI : IsTotal Transaction (fun a b => b.date ≤ a.date) :=
    ⟨fun a b => le_total b.date a.date⟩
  haveI : IsTrans Transaction (fun a b => b.date ≤ a.date) :=
    ⟨fun _ _ _ h1 h2 => le_trans h2 h1⟩
  exact List.sorted_insertionSort _ l

/-! ### Claim theorems -/

/-- C1: for every user id and every stored transaction set, `getUserBalance`
returns income equal to the sum of amounts of the user's income
transactions, expense equal to the sum of amounts of the user's expense
transactions, and balance equal to income minus expense; for a user with no
transactions all three are zero.  Sums and the difference are the
summation and subtraction the storage layer performs, namely binary64
arithmetic over the decimal amounts (`sumNumber`/`jsSub`); whether that
arithmetic coincides with exact decimal arithmetic is claim C2. -/
theorem getUserBalance_spec (st : MemoryStorage) (uid : String) :
    (getUserBalance st uid).income
        = sumNumber ((st.transactions.filter
            (fun t => t.userId = uid ∧ t.type = TxType.income)).map (·.amount))
    ∧ (getUserBalance st uid).expense
        = sumNumber ((st.transactions.filter
            (fun t => t.userId = uid ∧ t.type = TxType.expense)).map (·.amount))
    ∧ (getUserBalance st uid).balance
        = jsSub (getUserBalance st uid).income (getUserBalance st uid).expense
    ∧ ((∀ t ∈ st.transactions, t.userId ≠ uid) → getUserBalance st uid = ⟨0, 0, 0⟩) := by
  refine ⟨?_, ?_, rfl, ?_⟩
  · have h : (getUserBalance st uid).income
        = sumNumber (((st.transactions.filter (fun t => t.userId = uid)).filter
            (fun t => t.type = TxType.income)).map (·.amount)) := rfl
    rw [h, filter_user_then_type]
  · have h : (getUserBalance st uid).expense
        = sumNumber (((st.transactions.filter (fun t => t.userId = uid)).filter
            (fun t => t.type = TxType.expense)).map (·.amount)) := rfl
    rw [h, filter_user_then_type]
  · intro h
    have hf : st.transactions.filter (fun t => t.userId = uid) = [] := by
      rw [List.filter_eq_nil_iff]
      intro a ha
      simpa using h a ha
    unfold getUserBalance
    rw [hf]
    simp [sumNumber, jsSub, round64_zero]

/-- Witness for C1: on the empty store every balance is zero. -/
theorem getUserBalance_spec_witness : getUserBalance emptyStorage "u" = ⟨0, 0, 0⟩ :=
  (getUserBalance_spec emptyStorage "u").2.2.2 (by intro t ht; simp [emptyStorage] at ht)

/-- C9: listing a user's transactions without an explicit limit returns the
50 most recent by occurrence date and never more than 50, even when the
user owns more: the result is the 50-element prefix of the date-descending
ordering, and any stored transaction of the user more recent than a
returned one is itself returned. -/
theorem getUserTransactions_default_cap (st : MemoryStorage) (uid : String) :
    getUserTransactions st uid
        = (sortByDateDesc (st.transactions.filter (fun t => t.userId = uid))).take 50
    ∧ (getUserTransactions st uid).length ≤ 50
    ∧ (∀ x y, x ∈ getUserTransactions st uid → y ∈ st.transactions → y.userId = uid →
        x.date < y.date → y ∈ getUserTransactions st uid) := by
  refine ⟨rfl, ?_, ?_⟩
  · unfold getUserTransactions
    rw [List.length_take]
    omega
  · intro x y hx hy hyu hdate
    by_contra hyn
    have hyf : y ∈ st.transactions.filter (fun t => t.userId = uid) := by
      simp [List.mem_filter, hy, hyu]
    have hys : y ∈ sortByDateDesc (st.transactions.filter (fun t => t.userId = uid)) :=
      ((sortByDateDesc_perm _).mem_iff).mpr hyf
    have hsplit := List.take_append_drop 50
      (sortByDateDesc (st.transactions.filter (fun t => t.userId = uid)))
    rw [← hsplit] at hys
    rcases List.mem_append.mp hys with hyt | hyd
    · exact hyn hyt
    · have hrel := (sortByDateDesc_sorted
        (st.transactions.filter (fun t => t.userId = uid))).rel_of_mem_take_of_mem_drop
        hx hyd
      omega

/-- Witness for C9: with two stored transactions, the more recent one is
returned whenever the older one is. -/
theorem getUserTransactions_default_cap_witness :
    (⟨"t2", "u", 7, TxType.expense, "food", none, 2, 2⟩ : Transaction)
      ∈ getUserTransactions ⟨[], [⟨"t1", "u", 5, TxType.income, "other", none, 1, 1⟩,
          ⟨"t2", "u", 7, TxType.expense, "food", none, 2, 2⟩], [], []⟩ "u" :=
  (getUserTransactions_default_cap _ "u").2.2
    ⟨"t1", "u", 5, TxType.income, "other", none, 1, 1⟩
    ⟨"t2", "u", 7, TxType.expense, "food", none, 2, 2⟩
    (by decide) (by decide) (by decide) (by decide)

/-- C10: listing the conversation for a contact handle that resolves to no
registered user returns the empty list rather than an error, regardless of
any stored messages addressed to that handle.  The method reads the store
without modifying it (it is a pure function of the state), so no state
change is possible. -/
theorem getChatMessages_unknown_handle (st : MemoryStorage) (uid h : String)
    (limit : ℕ) (hh : ∀ u ∈ st.users, u.weyId ≠ h) :
    getChatMessages st uid h limit = [] := by
  unfold getChatMessages getUserByWeyId
  have hfind : st.users.find? (fun u => u.weyId = h) = none := by
    rw [List.find?_eq_none]
    intro u hu
    simpa using hh u hu
  rw [hfind]

/-- Witness for C10: a store holding a message addressed to the unknown
handle still yields the empty conversation. -/
theorem getChatMessages_unknown_handle_witness :
    getChatMessages
      ⟨[⟨"u1", "Alice", "SK1", "AAAAAAAA", 0, 0⟩], [], [],
        [⟨"m1", "u1", "ZZZZZZZZ", "hello", MessageType.text, false, 4⟩]⟩
      "u1" "ZZZZZZZZ" 50 = [] :=
  getChatMessages_unknown_handle _ "u1" "ZZZZZZZZ" 50 (by decide)

/-- Store with one registered user owning handle `AAAAAAAA`, used to
evaluate `addContact` at its failing input. -/
def stC4 : MemoryStorage := ⟨[⟨"u1", "Alice", "SK1", "AAAAAAAA", 0, 0⟩], [], [], []⟩

/-- C4 (code bug evidence): `addContact` performs neither the
handle-existence check nor the duplicate check the specification requires.
At a state where no user owns the target handle it persists and returns
the Contact, and a second add of the same handle persists a duplicate. -/
theorem addContact_no_failure_checks :
    (∀ u ∈ stC4.users, u.weyId ≠ "BBBBBBBB")
    ∧ (addContact stC4 "u1" ⟨"BBBBBBBB", "Budi"⟩ "c1" 5).2.contacts
        = [⟨"c1", "u1", "BBBBBBBB", "Budi", 5⟩]
    ∧ (addContact (addContact stC4 "u1" ⟨"BBBBBBBB", "Budi"⟩ "c1" 5).2
        "u1" ⟨"BBBBBBBB", "Budi"⟩ "c2" 6).2.contacts.length = 2 := by
  decide

/-- Store with one registered user owning handle `AAAAAAAA`, used to
evaluate `sendMessage` at its failing input. -/
def stC5 : MemoryStorage := ⟨[⟨"u1", "Alice", "SK1", "AAAAAAAA", 0, 0⟩], [], [], []⟩

/-- C5 (code bug evidence): `sendMessage` performs no recipient-existence
check: with no user owning the recipient handle, a Message record is
created and persisted anyway (with read flag false and defaulted kind). -/
theorem sendMessage_no_recipient_check :
    (∀ u ∈ stC5.users, u.weyId ≠ "ZZZZZZZZ")
    ∧ (sendMessage stC5 "u1" ⟨"ZZZZZZZZ", "hello", none⟩ "m1" 7).2.chatMessages
        = [⟨"m1", "u1", "ZZZZZZZZ", "hello", MessageType.text, false, 7⟩]
    ∧ (sendMessage stC5 "u1" ⟨"ZZZZZZZZ", "hello", none⟩ "m1" 7).1.isRead = false := by
  decide

/-- Store with owner `u1` (handle `AAAAAAAA`), contact user `u2` (handle
`BBBBBBBB`), and one unread message from `u2` addressed to the owner's
handle, used to evaluate `markMessagesAsRead`. -/
def stC6 : MemoryStorage :=
  ⟨[⟨"u1", "Alice", "SK1", "AAAAAAAA", 0, 0⟩, ⟨"u2", "Budi", "SK2", "BBBBBBBB", 0, 0⟩],
   [], [⟨"c1", "u1", "BBBBBBBB", "Budi", 2⟩],
   [⟨"m1", "u2", "AAAAAAAA", "hi", MessageType.text, false, 3⟩]⟩

/-- C6 (code bug evidence): the contact handle resolves to user `u2`, and
an unread message from `u2` addressed to the owner's handle is stored, yet
`markMessagesAsRead` changes nothing: the method compares `toWeyId`
against the owner's internal id instead of the owner's handle, so no
incoming message ever matches. -/
theorem markMessagesAsRead_misses_incoming :
    (getUserByWeyId stC6 "BBBBBBBB").map (·.id) = some "u2"
    ∧ (∃ m ∈ stC6.chatMessages,
        m.fromUserId = "u2" ∧ m.toWeyId = "AAAAAAAA" ∧ m.isRead = false)
    ∧ (∀ u ∈ stC6.users, u.id = "u1" → u.weyId = "AAAAAAAA")
    ∧ markMessagesAsRead stC6 "u1" "BBBBBBBB" = stC6 := by
  decide

/-- C8 counterexample: the empty string is a valid description input, but
the created transaction is listed with a null description, not one
identical to the input (`description || null` normalizes falsy values). -/
theorem createTransaction_empty_description_cex :
    ((⟨50000, TxType.expense, "food", some "", 0⟩ : InsertTransaction)).description = some ""
    ∧ (getUserTransactions
        (createTransaction emptyStorage "u"
          ⟨50000, TxType.expense, "food", some "", 0⟩ "t1" 0).2 "u").map (·.description)
      = [none] := by
  decide

/-- C8 (amended): creating a transaction and immediately listing the
user's transactions returns the created transaction — provided the user's
stored transactions do not exceed the 50-item listing cap — with amount
(exact decimal equality), type and category identical to the input, and
with the description identical except that an empty or missing description
is normalized to null. -/
theorem createTransaction_roundTrip (st : MemoryStorage) (uid : String)
    (data : InsertTransaction) (newId : String) (now : ℤ)
    (hcount : (st.transactions.filter (fun t => t.userId = uid)).length < 50) :
    (createTransaction st uid data newId now).1 ∈
        getUserTransactions (createTransaction st uid data newId now).2 uid
    ∧ (createTransaction st uid data newId now).1.amount = data.amount
    ∧ (createTransaction st uid data newId now).1.type = data.type
    ∧ (createTransaction st uid data newId now).1.category = data.category
    ∧ (createTransaction st uid data newId now).1.description
        = normalizeDescription data.description := by
  refine ⟨?_, rfl, rfl, rfl, rfl⟩
  set t := (createTransaction st uid data newId now).1 with ht
  have htu : t.userId = uid := rfl
  have hfl : (st.transactions ++ [t]).filter (fun x => x.userId = uid)
      = (st.transactions.filter (fun x => x.userId = uid)) ++ [t] := by
    rw [List.filter_append]
    congr 1
    simp [htu]
  have hlen : ((st.transactions ++ [t]).filter (fun x => x.userId = uid)).length ≤ 50 := by
    rw [hfl, List.length_append]
    simp only [List.length_singleton]
    omega
  show t ∈ getUserTransactions (createTransaction st uid data newId now).2 uid
  unfold getUserTransactions
  rw [show (createTransaction st uid data newId now).2.transactions
      = st.transactions ++ [t] from rfl]
  rw [List.take_of_length_le]
  · refine ((sortByDateDesc_perm _).mem_iff).mpr ?_
    rw [hfl]
    simp
  · rw [(sortByDateDesc_perm _).length_eq]
    exact hlen

/-- Witness for C8: a round trip on the empty store returns the created
transaction with its nonempty description intact. -/
theorem createTransaction_roundTrip_witness :
    (createTransaction emptyStorage "u" ⟨50000, TxType.expense, "food", some "makan", 0⟩
        "t1" 0).1 ∈
      getUserTransactions
        (createTransaction emptyStorage "u" ⟨50000, TxType.expense, "food", some "makan", 0⟩
          "t1" 0).2 "u"
    ∧ (createTransaction emptyStorage "u" ⟨50000, TxType.expense, "food", some "makan", 0⟩
        "t1" 0).1.description = some "makan" :=
  ⟨(createTransaction_roundTrip emptyStorage "u" _ "t1" 0 (by decide)).1, by decide⟩

/-- C3: for every store, user and current time, and every
`weekCount ≥ 1`, `getWeeklyStats` returns exactly `weekCount` buckets,
ordered most recent first; bucket `i` covers the local-calendar week
starting `i` weeks before the current week's Monday midnight and ending
the following Sunday at 23:59:59.999 (so consecutive buckets abut and
bucket 0 contains `now`); each bucket's income and expense are the sums
the aggregator computes (binary64 folds, cf. C2) over exactly that week's
transactions of each type, with balance their difference; weeks with no
transactions still produce a bucket, since the count never depends on the
stored transactions. -/
theorem getWeeklyStats_buckets (st : MemoryStorage) (uid : String) (now : ℤ)
    (n : ℕ) (hn : 1 ≤ n) :
    (getWeeklyStats st uid now n).length = n
    ∧ ∀ i, i < n → ∃ b : WeekBucket,
        (getWeeklyStats st uid now n)[i]? = some b
        ∧ b.startDate = weekStartMs now 0 - 7 * dayMs * (i : ℤ)
        ∧ b.endDate = b.startDate + 7 * dayMs - 1
        ∧ b.startDate % dayMs = 0
        ∧ dayOfWeek b.startDate = 1
        ∧ (i = 0 → b.startDate ≤ now ∧ now ≤ b.endDate)
        ∧ b.income = sumNumber (((getUserTransactionsByDateRange st uid b.startDate
            b.endDate).filter (fun t => t.type = TxType.income)).map (·.amount))
        ∧ b.expense = sumNumber (((getUserTransactionsByDateRange st uid b.startDate
            b.endDate).filter (fun t => t.type = TxType.expense)).map (·.amount))
        ∧ b.balance = jsSub b.income b.expense := by
  constructor
  · simp [getWeeklyStats]
  · intro i hi
    refine ⟨weeklyBucket st uid now i, ?_, ?_, rfl, ?_, ?_, ?_, rfl, rfl, rfl⟩
    · simp [getWeeklyStats, List.getElem?_map, List.getElem?_range, hi]
    · show weekStartMs now i = weekStartMs now 0 - 7 * dayMs * (i : ℤ)
      unfold weekStartMs
      push_cast
      ring
    · show weekStartMs now i % dayMs = 0
      unfold weekStartMs mondayOffset dayOfWeek dayIndex dayMs
      split_ifs <;> omega
    · show dayOfWeek (weekStartMs now i) = 1
      unfold weekStartMs mondayOffset dayOfWeek dayIndex dayMs
      split_ifs <;> omega
    · intro hi0
      subst hi0
      constructor
      · show weekStartMs now 0 ≤ now
        unfold weekStartMs mondayOffset dayOfWeek dayIndex dayMs
        split_ifs <;> omega
      · show now ≤ weekEndMs now 0
        unfold weekEndMs weekStartMs mondayOffset dayOfWeek dayIndex dayMs
        split_ifs <;> omega

/-- Witness for C3: on the empty store at time 0 with one week requested,
exactly one bucket is returned and its start is a Monday midnight. -/
theorem getWeeklyStats_buckets_witness :
    (getWeeklyStats emptyStorage "u" 0 1).length = 1
    ∧ ∃ b : WeekBucket, (getWeeklyStats emptyStorage "u" 0 1)[0]? = some b
        ∧ dayOfWeek b.startDate = 1 ∧ b.startDate ≤ 0 ∧ 0 ≤ b.endDate := by
  obtain ⟨h1, h2⟩ := getWeeklyStats_buckets emptyStorage "u" 0 1 (by norm_num)
  obtain ⟨b, hb, _, _, _, hdow, hcur, _, _, _⟩ := h2 0 (by norm_num)
  obtain ⟨hle, hge⟩ := hcur rfl
  exact ⟨h1, b, hb, hdow, hle, hge⟩

/-! ### Registration invariant (C7) -/

theorem generateWeyId_valid (rng : ℕ → Fin 36) (k : ℕ) :
    ValidWeyId (generateWeyId rng k) := by
  constructor
  · show (String.mk _).length = 8
    simp [String.length, generateWeyId]
  · intro c hc
    simp only [generateWeyId, String.mk, List.mem_map, List.mem_range] at hc
    obtain ⟨j, _, rfl⟩ := hc
    unfold weyChar
    exact List.get_mem _ _ _

theorem pickWeyId_spec (users : List User) (rng : ℕ → Fin 36) (k fuel : ℕ) (c : String)
    (h : pickWeyId users rng k fuel = some c) :
    ValidWeyId c ∧ ∀ u ∈ users, u.weyId ≠ c := by
  induction fuel generalizing k with
  | zero => simp [pickWeyId] at h
  | succ fuel ih =>
    by_cases hany : users.any (fun u => u.weyId = generateWeyId rng k) = true
    · simp only [pickWeyId, hany, if_true] at h
      exact ih (k + 8) h
    · simp only [pickWeyId, hany, if_false] at h
      obtain rfl : generateWeyId rng k = c := Option.some.inj h
      refine ⟨generateWeyId_valid rng k, ?_⟩
      intro u hu hc
      exact hany (List.any_eq_true.mpr ⟨u, hu, by simp [hc]⟩)

theorem registerUser_invariant (st : MemoryStorage) (data : InsertUser)
    (rng : ℕ → Fin 36) (fuel : ℕ) (newId : String) (now : ℤ)
    (h : RegInvariant st) :
    RegInvariant (registerUser st data rng fuel newId now) := by
  unfold registerUser
  split_ifs with hpk
  · exact h
  · cases hcu : createUser st data rng fuel newId now with
    | none => exact h
    | some p =>
      obtain ⟨u, st2⟩ := p
      show RegInvariant st2
      unfold createUser at hcu
      cases hpick : pickWeyId st.users rng 0 fuel with
      | none => rw [hpick] at hcu; simp at hcu
      | some w =>
        rw [hpick] at hcu
        simp only [Option.map_some'] at hcu
        injection hcu with hcu2
        injection hcu2 with hcu3 hst
        obtain ⟨hvalid, hfresh⟩ := pickWeyId_spec st.users rng 0 fuel w hpick
        have hkey : ∀ u ∈ st.users, u.privateKey ≠ data.privateKey := by
          intro u hu hk
          apply hpk
          rw [Option.isSome_iff_exists]
          unfold getUserByPrivateKey
          have : st.users.find? (fun v => v.privateKey = data.privateKey) ≠ none := by
            rw [Ne, List.find?_eq_none]
            push_neg
            exact ⟨u, hu, by simp [hk]⟩
          cases hf : st.users.find? (fun v => v.privateKey = data.privateKey) with
          | none => exact absurd hf this
          | some v => exact ⟨v, rfl⟩
        obtain ⟨h1, h2, h3⟩ := h
        rw [← hst]
        refine ⟨?_, ?_, ?_⟩
        · intro u hu
          rcases List.mem_append.mp hu with hu | hu
          · exact h1 u hu
          · rw [List.mem_singleton.mp hu]
            exact hvalid
        · rw [List.pairwise_append]
          refine ⟨h2, List.pairwise_singleton _ _, ?_⟩
          intro a ha b hb
          rw [List.mem_singleton.mp hb]
          exact hfresh a ha
        · rw [List.pairwise_append]
          refine ⟨h3, List.pairwise_singleton _ _, ?_⟩
          intro a ha b hb
          rw [List.mem_singleton.mp hb]
          exact hkey a ha

/-- C7: in every store reachable by a sequence of registrations from the
empty store, every registered user's handle is exactly eight characters
from the fixed uppercase-alphanumeric alphabet, no two users share a
handle (the generator retries on collision until a fresh handle is
drawn), and no two users share a credential (a registration whose private
key is already in use is rejected without touching the store). -/
theorem registration_invariant (steps : List RegStep) :
    RegInvariant (runRegistrations steps) := by
  have hbase : RegInvariant emptyStorage :=
    ⟨by simp [emptyStorage], by simp [emptyStorage], by simp [emptyStorage]⟩
  unfold runRegistrations
  suffices hgen : ∀ st, RegInvariant st →
      RegInvariant (steps.foldl
        (fun st s => registerUser st s.data s.rng s.fuel s.newId s.now) st) from
    hgen emptyStorage hbase
  induction steps with
  | nil => intro st h; simpa using h
  | cons s t ih =>
    intro st h
    rw [List.foldl_cons]
    exact ih _ (registerUser_invariant st s.data s.rng s.fuel s.newId s.now h)

/-- Witness for C7: the invariant holds after one concrete registration. -/
theorem registration_invariant_witness :
    RegInvariant (runRegistrations
      [⟨⟨"Alice", "SK11111111111111111111", 2000000⟩,
        fun _ => ⟨0, by norm_num⟩, 1, "u1", 0⟩]) :=
  registration_invariant _

/-! ### Binary64 evaluation of the 0.10 + 0.20 balance (C2) -/

theorem log2_eq_of_bounds (q : ℚ) (e : ℤ) (hq : 0 < q)
    (h1 : (2:ℚ) ^ e ≤ q) (h2 : q < (2:ℚ) ^ (e + 1)) : Int.log 2 q = e := by
  have hb : (1:ℕ) < 2 := by norm_num
  have ha := (Int.zpow_le_iff_le_log hb hq).mp (by exact_mod_cast h1)
  have hc := (Int.lt_zpow_iff_log_lt hb hq).mp (by exact_mod_cast h2)
  omega

theorem round64_eval (q : ℚ) (e : ℤ) (m : ℤ) (hq : 0 < q)
    (h1 : (2:ℚ) ^ e ≤ q) (h2 : q < (2:ℚ) ^ (e + 1))
    (hm : roundHalfEven (q / (2:ℚ) ^ (e - 52)) = m) :
    round64 q = (m : ℚ) * (2:ℚ) ^ (e - 52) := by
  unfold round64
  rw [if_neg (ne_of_gt hq), abs_of_pos hq, log2_eq_of_bounds q e hq h1 h2, hm]

theorem roundHalfEven_up_tenth :
    roundHalfEven ((36028797018963968:ℚ)/5) = 7205759403792794 := by
  unfold roundHalfEven
  have hf : ⌊(36028797018963968:ℚ)/5⌋ = 7205759403792793 := by norm_num
  rw [hf, if_neg (by push_cast; norm_num), if_pos (by push_cast; norm_num)]
  norm_num

theorem roundHalfEven_tie_even :
    roundHalfEven ((10808639105689191:ℚ)/2) = 5404319552844596 := by
  unfold roundHalfEven
  have hf : ⌊(10808639105689191:ℚ)/2⌋ = 5404319552844595 := by norm_num
  rw [hf, if_neg (by push_cast; norm_num), if_neg (by push_cast; norm_num),
    if_neg (by norm_num)]
  norm_num

theorem round64_tenth :
    round64 ((1:ℚ)/10) = (7205759403792794 : ℚ) * (2:ℚ) ^ (-56 : ℤ) := by
  have h := round64_eval ((1:ℚ)/10) (-4) 7205759403792794 (by norm_num)
    (by norm_num) (by norm_num)
    (by rw [show ((1:ℚ)/10) / (2:ℚ) ^ ((-4 : ℤ) - 52) = (36028797018963968:ℚ)/5 from by
          norm_num]
        exact roundHalfEven_up_tenth)
  rw [h]
  norm_num

theorem round64_fifth :
    round64 ((2:ℚ)/10) = (7205759403792794 : ℚ) * (2:ℚ) ^ (-55 : ℤ) := by
  have h := round64_eval ((2:ℚ)/10) (-3) 7205759403792794 (by norm_num)
    (by norm_num) (by norm_num)
    (by rw [show ((2:ℚ)/10) / (2:ℚ) ^ ((-3 : ℤ) - 52) = (36028797018963968:ℚ)/5 from by
          norm_num]
        exact roundHalfEven_up_tenth)
  rw [h]
  norm_num

theorem round64_tenth_fixed :
    round64 ((7205759403792794 : ℚ) * (2:ℚ) ^ (-56 : ℤ))
      = (7205759403792794 : ℚ) * (2:ℚ) ^ (-56 : ℤ) := by
  have h := round64_eval ((7205759403792794 : ℚ) * (2:ℚ) ^ (-56 : ℤ)) (-4)
    7205759403792794 (by norm_num) (by norm_num) (by norm_num)
    (by rw [show ((7205759403792794 : ℚ) * (2:ℚ) ^ (-56 : ℤ)) / (2:ℚ) ^ ((-4 : ℤ) - 52)
          = ((7205759403792794 : ℤ) : ℚ) from by norm_num]
        exact roundHalfEven_intCast _)
  rw [h]
  norm_num

theorem jsAdd_tenth_fifth :
    jsAdd ((7205759403792794 : ℚ) * (2:ℚ) ^ (-56 : ℤ))
        ((7205759403792794 : ℚ) * (2:ℚ) ^ (-55 : ℤ))
      = (5404319552844596 : ℚ) * (2:ℚ) ^ (-54 : ℤ) := by
  unfold jsAdd
  rw [show (7205759403792794 : ℚ) * (2:ℚ) ^ (-56 : ℤ)
      + (7205759403792794 : ℚ) * (2:ℚ) ^ (-55 : ℤ)
      = (10808639105689191 : ℚ) * (2:ℚ) ^ (-55 : ℤ) from by norm_num]
  have h := round64_eval ((10808639105689191 : ℚ) * (2:ℚ) ^ (-55 : ℤ)) (-2)
    5404319552844596 (by norm_num) (by norm_num) (by norm_num)
    (by rw [show ((10808639105689191 : ℚ) * (2:ℚ) ^ (-55 : ℤ)) / (2:ℚ) ^ ((-2 : ℤ) - 52)
          = (10808639105689191:ℚ)/2 from by norm_num]
        exact roundHalfEven_tie_even)
  rw [h]
  norm_num

/-- Store with two income transactions of decimal amounts 0.10 and 0.20,
exercising the binary64 summation of `getUserBalance`. -/
def stC2 : MemoryStorage :=
  ⟨[], [⟨"t1", "u", 1/10, TxType.income, "other", none, 0, 0⟩,
        ⟨"t2", "u", 2/10, TxType.income, "other", none, 1, 1⟩], [], []⟩

/-- C2 counterexample: the exact decimal sum of the user's income amounts
is 0.30, but the returned income is the binary64 value
5404319552844596 / 2^54 = 0.30000000000000004…, so aggregation does not
preserve exact decimal addition. -/
theorem balance_not_exact_decimal :
    ((stC2.transactions.filter
        (fun t => t.userId = "u" ∧ t.type = TxType.income)).map (·.amount)).sum = 3/10
    ∧ (getUserBalance stC2 "u").income ≠ 3/10 := by
  constructor
  · have h : ((stC2.transactions.filter
        (fun t => t.userId = "u" ∧ t.type = TxType.income)).map (·.amount))
        = [(1:ℚ)/10, 2/10] := rfl
    rw [h]
    norm_num
  · have h : (getUserBalance stC2 "u").income
        = jsAdd (jsAdd 0 (round64 ((1:ℚ)/10))) (round64 ((2:ℚ)/10)) := rfl
    rw [h, round64_tenth, round64_fifth]
    have h0 : jsAdd 0 ((7205759403792794 : ℚ) * (2:ℚ) ^ (-56 : ℤ))
        = (7205759403792794 : ℚ) * (2:ℚ) ^ (-56 : ℤ) := by
      unfold jsAdd
      rw [zero_add]
      exact round64_tenth_fixed
    rw [h0, jsAdd_tenth_fifth]
    norm_num

/-- C2 (amended): aggregation over transaction amounts computes with
binary64 floating-point arithmetic, not exact decimal arithmetic.  A
returned sum equals the exact decimal sum of the stored amounts whenever
every amount and every intermediate value is exactly representable in
binary64 — proved here for the balance aggregation with whole-number
amounts whose total stays below 2^53, the regime covering whole-currency
bookkeeping — but not in general (counterexample: amounts 0.10 and
0.20). -/
theorem balance_exact_on_whole_amounts (st : MemoryStorage) (uid : String)
    (hw : ∀ t ∈ st.transactions, t.userId = uid → ∃ n : ℕ, t.amount = (n : ℚ))
    (hb : ((st.transactions.filter (fun t => t.userId = uid)).map (·.amount)).sum
        < 2 ^ 53) :
    (getUserBalance st uid).income
        = ((st.transactions.filter
            (fun t => t.userId = uid ∧ t.type = TxType.income)).map (·.amount)).sum
    ∧ (getUserBalance st uid).expense
        = ((st.transactions.filter
            (fun t => t.userId = uid ∧ t.type = TxType.expense)).map (·.amount)).sum
    ∧ (getUserBalance st uid).balance
        = ((st.transactions.filter
            (fun t => t.userId = uid ∧ t.type = TxType.income)).map (·.amount)).sum
          - ((st.transactions.filter
            (fun t => t.userId = uid ∧ t.type = TxType.expense)).map (·.amount)).sum := by
  have hnat : ∀ ty : TxType, ∀ a ∈ ((st.transactions.filter
      (fun t => t.userId = uid ∧ t.type = ty)).map (·.amount)), ∃ n : ℕ, a = (n : ℚ) := by
    intro ty a ha
    rw [List.mem_map] at ha
    obtain ⟨t, ht, rfl⟩ := ha
    rw [List.mem_filter] at ht
    obtain ⟨htm, htp⟩ := ht
    have := of_decide_eq_true htp
    exact hw t htm this.1
  have hnonneg : ∀ x ∈ st.transactions.filter (fun t => t.userId = uid),
      0 ≤ (fun t : Transaction => t.amount) x := by
    intro x hx
    rw [List.mem_filter] at hx
    obtain ⟨n, hn⟩ := hw x hx.1 (of_decide_eq_true hx.2)
    show 0 ≤ x.amount
    rw [hn]
    positivity
  have hle : ∀ ty : TxType, ((st.transactions.filter
      (fun t => t.userId = uid ∧ t.type = ty)).map (·.amount)).sum
      ≤ ((st.transactions.filter (fun t => t.userId = uid)).map (·.amount)).sum := by
    intro ty
    rw [← filter_user_then_type]
    exact sum_map_filter_le _ _ _ hnonneg
  have hsum : ∀ ty : TxType, sumNumber ((st.transactions.filter
      (fun t => t.userId = uid ∧ t.type = ty)).map (·.amount))
      = ((st.transactions.filter
          (fun t => t.userId = uid ∧ t.type = ty)).map (·.amount)).sum := by
    intro ty
    exact sumNumber_natCast _ (hnat ty) (lt_of_le_of_lt (hle ty) hb)
  have hinc : (getUserBalance st uid).income
      = ((st.transactions.filter
          (fun t => t.userId = uid ∧ t.type = TxType.income)).map (·.amount)).sum := by
    have h : (getUserBalance st uid).income
        = sumNumber (((st.transactions.filter (fun t => t.userId = uid)).filter
            (fun t => t.type = TxType.income)).map (·.amount)) := rfl
    rw [h, filter_user_then_type]
    exact hsum TxType.income
  have hexp : (getUserBalance st uid).expense
      = ((st.transactions.filter
          (fun t => t.userId = uid ∧ t.type = TxType.expense)).map (·.amount)).sum := by
    have h : (getUserBalance st uid).expense
        = sumNumber (((st.transactions.filter (fun t => t.userId = uid)).filter
            (fun t => t.type = TxType.expense)).map (·.amount)) := rfl
    rw [h, filter_user_then_type]
    exact hsum TxType.expense
  refine ⟨hinc, hexp, ?_⟩
  have hbal : (getUserBalance st uid).balance
      = jsSub (getUserBalance st uid).income (getUserBalance st uid).expense := rfl
  obtain ⟨ni, hni⟩ := natSum_of_forall_nat _ (hnat TxType.income)
  obtain ⟨ne2, hne⟩ := natSum_of_forall_nat _ (hnat TxType.expense)
  have hni53 : (ni : ℚ) < 2 ^ 53 := by
    rw [← hni]
    exact lt_of_le_of_lt (hle TxType.income) hb
  have hne53 : (ne2 : ℚ) < 2 ^ 53 := by
    rw [← hne]
    exact lt_of_le_of_lt (hle TxType.expense) hb
  have hni53n : ni < 2 ^ 53 := by exact_mod_cast hni53
  have hne53n : ne2 < 2 ^ 53 := by exact_mod_cast hne53
  rw [hbal, hinc, hexp, hni, hne, jsSub]
  have hc : (ni : ℚ) - (ne2 : ℚ) = (((ni : ℤ) - (ne2 : ℤ) : ℤ) : ℚ) := by push_cast; ring
  rw [hc, round64_intCast _ (by rw [abs_lt]; constructor <;> push_cast <;> omega)]

/-- Store with whole-rupiah amounts, for the C2 witness. -/
def stC2w : MemoryStorage :=
  ⟨[], [⟨"t1", "u", 50000, TxType.expense, "food", none, 0, 0⟩,
        ⟨"t2", "u", 2000000, TxType.income, "salary", none, 1, 1⟩], [], []⟩

/-- Witness for C2 (amended): on whole-number amounts the balance equals
the exact decimal figures. -/
theorem balance_exact_on_whole_amounts_witness :
    (getUserBalance stC2w "u").income = 2000000
    ∧ (getUserBalance stC2w "u").expense = 50000
    ∧ (getUserBalance stC2w "u").balance = 1950000 := by
  have hw : ∀ t ∈ stC2w.transactions, t.userId = "u" → ∃ n : ℕ, t.amount = (n : ℚ) := by
    intro t ht _
    simp only [stC2w, List.mem_cons, List.not_mem_nil, or_false] at ht
    rcases ht with rfl | rfl
    · exact ⟨50000, by show (50000 : ℚ) = ((50000 : ℕ) : ℚ); norm_num⟩
    · exact ⟨2000000, by show (2000000 : ℚ) = ((2000000 : ℕ) : ℚ); norm_num⟩
  have hb : ((stC2w.transactions.filter (fun t => t.userId = "u")).map (·.amount)).sum
      < 2 ^ 53 := by
    have h : ((stC2w.transactions.filter (fun t => t.userId = "u")).map (·.amount))
        = [(50000 : ℚ), 2000000] := rfl
    rw [h]
    norm_num
  obtain ⟨h1, h2, h3⟩ := balance_exact_on_whole_amounts stC2w "u" hw hb
  have hi : ((stC2w.transactions.filter
      (fun t => t.userId = "u" ∧ t.type = TxType.income)).map (·.amount)) = [(2000000 : ℚ)] := rfl
  have he : ((stC2w.transactions.filter
      (fun t => t.userId = "u" ∧ t.type = TxType.expense)).map (·.amount)) = [(50000 : ℚ)] := rfl
  rw [hi, he] at h3
  rw [hi] at h1
  rw [he] at h2
  refine ⟨by rw [h1]; norm_num, by rw [h2]; norm_num, by rw [h3]; norm_num⟩
